import Mathlib

/-
Verification of the imap-mailbox core (Imap.ts, Mail.ts) via a shallow
embedding.  External collaborators (the imapflow client, mailparser) are
modelled as oracles: each operation takes the value the collaborator would
return (or an indication that it threw) as an explicit argument, and the
embedding records the calls the code makes in an event trace so that
ordering and resource claims can be stated.
-/

namespace ImapMailbox

/-- Outcome of a JavaScript async call: resolved with a value, or rejected. -/
inductive JsResult (α : Type) where
  | ok (value : α)
  | thrown
  deriving DecidableEq, Repr

/-- The watch-related part of ImapConfig (ImapConfig.interface.ts): every field
is optional in TypeScript, hence Option here. -/
structure ImapConfig where
  reconnectInterval : Option Nat := none
  mailboxesToWatch : Option (List String) := none
  mailboxesWatchInterval : Option Nat := none
  deriving DecidableEq, Repr

/-- JavaScript `a || d` for an optional number: `undefined` and `0` are falsy. -/
def jsOr (a : Option Nat) (d : Nat) : Nat :=
  match a with
  | none => d
  | some n => if n = 0 then d else n

/-- DEFAULT_RECONNECT_INTERVAL = 1000 * 60 (Imap.ts line 17). -/
def DEFAULT_RECONNECT_INTERVAL : Nat := 1000 * 60

/-- DEFAULT_MAILBOXES_INTERVAL = 1000 * 60 (Imap.ts line 18). -/
def DEFAULT_MAILBOXES_INTERVAL : Nat := 1000 * 60

/-- Delay in milliseconds passed to setTimeout by Imap.restart (Imap.ts lines
192-195): `this.config.reconnectInterval || DEFAULT_RECONNECT_INTERVAL`. -/
def restartDelay (cfg : ImapConfig) : Nat :=
  jsOr cfg.reconnectInterval DEFAULT_RECONNECT_INTERVAL

/-- Delay in milliseconds passed to setTimeout by the transport-error handler
registered in Imap.watchErrors (Imap.ts lines 198-207): the code computes
`timeout = (reconnectInterval || DEFAULT_RECONNECT_INTERVAL) / 1000` for its
log line and then passes that same `timeout` to setTimeout. -/
def errorHandlerDelay (cfg : ImapConfig) : Nat :=
  (jsOr cfg.reconnectInterval DEFAULT_RECONNECT_INTERVAL) / 1000

/-- Whether `pre` is a prefix of `l` (JavaScript startsWith, used to locate
occurrences of a split separator). -/
def isPrefixOfChars : List Char → List Char → Bool
  | [], _ => true
  | _ :: _, [] => false
  | a :: as, b :: bs => a == b && isPrefixOfChars as bs

/-- Worker for jsSplit with a nonempty separator: scan left to right, cut at
every occurrence of the separator.  The fuel argument (at least the input
length) makes the recursion structural, so the kernel can evaluate it. -/
def splitSepAux (sep : List Char) : Nat → List Char → List Char → List (List Char)
  | _, [], acc => [acc.reverse]
  | 0, c :: cs, acc => [acc.reverse ++ c :: cs]
  | fuel + 1, c :: cs, acc =>
    if isPrefixOfChars sep (c :: cs) then
      acc.reverse :: splitSepAux sep fuel (cs.drop (sep.length - 1)) []
    else
      splitSepAux sep fuel cs (c :: acc)

/-- JavaScript String.prototype.split on a string separator: an empty
separator splits into single characters, otherwise cut at every
left-to-right, non-overlapping occurrence of the separator. -/
def jsSplit (s sep : List Char) : List (List Char) :=
  if sep.isEmpty then s.map (fun c => [c]) else splitSepAux sep s.length s []

/-- JavaScript String.prototype.trim (on the ASCII whitespace that matters
here): drop whitespace from both ends. -/
def jsTrim (s : List Char) : List Char :=
  ((s.dropWhile Char.isWhitespace).reverse.dropWhile Char.isWhitespace).reverse

/-- Mail.parseContent (Mail.ts lines 65-78), on the character list of the
body.  The argument is the JavaScript parameter, which may be `undefined`
(none).  The body runs inside `try/catch`; every caught throw and the
fall-through path return "".  Mirrors: split on newline; `pop()` (dropLast);
index the last remaining line (indexing an empty array gives `undefined`,
whose `.slice` throws — the none branch of getLast?); `slice(0, -2)` (drop
the final two characters); split the full text on that separator and keep
element 0 (absent element 0 would make `.trim()` throw — the none branch of
head?); `trim()`. -/
def parseContent (content : Option (List Char)) : List Char :=
  match content with
  | none => []
  | some c =>
    let textLines := (jsSplit c [newlineChar]).dropLast
    match textLines.getLast? with
    | none => []
    | some lastLine =>
      let separator := lastLine.take (lastLine.length - 2)
      match (jsSplit c separator).head? with
      | none => []
      | some t => jsTrim t
where
  newlineChar : Char := Char.ofNat 10

/-- Mail.parseContent applied the way the Mail constructor does, as a map on
strings: `this.parseContent(parsedMail.text || '')`. -/
def parseContentStr (content : Option String) : String :=
  String.mk (parseContent (content.map String.data))

/-- Modelled from the spec: the UidsList interface
(interfaces/UidsList.interface.ts) is not under src/.  Per the spec's data
model an IdentifierSelector is a union: either an explicit list of
identifiers or a list of Message references (represented here by their
uid). -/
inductive UidsList where
  | uids (l : List Nat)
  | mails (l : List Nat)
  deriving DecidableEq, Repr

/-- First-occurrence deduplication preserving input order. -/
def dedupKeepFirst : List Nat → List Nat
  | [] => []
  | x :: xs => x :: (dedupKeepFirst xs).filter (fun y => y ≠ x)

/-- Modelled from the spec: utils.ts (uidsAndMailsToUids) is not under src/.
Per the spec, the selector is always normalized to a deduplicated identifier
list preserving input order (resolve of [3,1,2,1] is [3,1,2]); Message
references contribute their identifier. -/
def uidsAndMailsToUids : UidsList → List Nat
  | .uids l => dedupKeepFirst l
  | .mails l => dedupKeepFirst l

/-- Observable calls a mutation operation makes against the client and the
event emitter, in order. -/
inductive Ev where
  | acquireLock (path : String) (ok : Bool)
  | storeDelete (uids : List Nat)
  | storeFlagsAdd (uids : List Nat)
  | storeFlagsRemove (uids : List Nat)
  | emitDeletedMail (uid : Nat)
  | release
  deriving DecidableEq, Repr

/-- Imap.deleteMails (Imap.ts lines 102-119).  Oracles: `lockOk` is whether
`client.getMailboxLock` returned a lock (truthy) or null; `storeResult` is
what `client.messageDelete` resolves to (or that it rejected).  Mirrors the
source: normalize the selector; get the lock; if truthy, call messageDelete;
a rejection propagates (with no release); on `result === true` emit
deletedMail for each uid in order; release; return result; if the lock was
falsy return false. -/
def deleteMails (mailboxPath : String) (toDelete : UidsList) (lockOk : Bool)
    (storeResult : JsResult Bool) : List Ev × JsResult Bool :=
  let uids := uidsAndMailsToUids toDelete
  let pre := [Ev.acquireLock mailboxPath lockOk]
  if lockOk then
    match storeResult with
    | .thrown => (pre ++ [Ev.storeDelete uids], .thrown)
    | .ok result =>
      (pre ++ [Ev.storeDelete uids]
           ++ (if result then uids.map Ev.emitDeletedMail else [])
           ++ [Ev.release],
       .ok result)
  else (pre, .ok false)

/-- Imap.seeMails (Imap.ts lines 127-145).  Same shape as deleteMails with
`client.messageFlagsAdd` and no event emission. -/
def seeMails (mailboxPath : String) (toSee : UidsList) (lockOk : Bool)
    (storeResult : JsResult Bool) : List Ev × JsResult Bool :=
  let uids := uidsAndMailsToUids toSee
  let pre := [Ev.acquireLock mailboxPath lockOk]
  if lockOk then
    match storeResult with
    | .thrown => (pre ++ [Ev.storeFlagsAdd uids], .thrown)
    | .ok result => (pre ++ [Ev.storeFlagsAdd uids, Ev.release], .ok result)
  else (pre, .ok false)

/-- Imap.unseeMails (Imap.ts lines 153-171).  Unlike the other two, the
guard is `mailbox && uids.length > 0`: the lock is requested first, and when
the normalized list is empty the operation falls through to `return false`
without calling `client.messageFlagsRemove` — and without releasing the lock
it just acquired. -/
def unseeMails (mailboxPath : String) (toUnsee : UidsList) (lockOk : Bool)
    (storeResult : JsResult Bool) : List Ev × JsResult Bool :=
  let uids := uidsAndMailsToUids toUnsee
  let pre := [Ev.acquireLock mailboxPath lockOk]
  if lockOk && decide (0 < uids.length) then
    match storeResult with
    | .thrown => (pre ++ [Ev.storeFlagsRemove uids], .thrown)
    | .ok result => (pre ++ [Ev.storeFlagsRemove uids, Ev.release], .ok result)
  else (pre, .ok false)

/-- The mutable state of an Imap instance touched by the watcher: the
`mailboxes` map (path to lastUid, insertion-ordered as a JavaScript Map) and
the `loadedMails` buffer (represented by the uids of the buffered mails). -/
structure ImapState where
  mailboxes : List (String × Nat)
  loadedMails : List Nat
  deriving DecidableEq, Repr

/-- JavaScript Map.get on the mailboxes map. -/
def lookupBox (m : List (String × Nat)) (p : String) : Option Nat :=
  (m.find? (fun e => e.1 == p)).map Prod.snd

/-- JavaScript Map.set on the mailboxes map: overwrite in place when the key
exists (keeping insertion order), otherwise append. -/
def setBox (m : List (String × Nat)) (p : String) (v : Nat) :
    List (String × Nat) :=
  if m.any (fun e => e.1 == p) then
    m.map (fun e => if e.1 == p then (p, v) else e)
  else m ++ [(p, v)]

/-- Observable actions of one poll: the search/fetch of the mailbox contents
and each newMail emission. -/
inductive PollEv where
  | fetch (path : String)
  | emitNewMail (uid : Nat)
  deriving DecidableEq, Repr

/-- Imap.watchMailbox (Imap.ts lines 244-263) together with the getLastMails
filter it calls (lines 303-312).  The oracle `fetchResult` is the uid list
the client's fetch over range 1:* yields, in fetch order, or that the
search/parse threw.  Mirrors the source: look the path up in the mailboxes
map and do nothing if absent; fetch; keep the mails with uid strictly above
the stored lastUid (getLastMails); if any, set lastUid to the uid of the
LAST such mail (mails[mails.length - 1].uid), store it back, and emit
newMail for each in order; every throw is caught and swallowed, leaving the
state unchanged. -/
def watchMailbox (st : ImapState) (path : String)
    (fetchResult : JsResult (List Nat)) : ImapState × List PollEv :=
  match lookupBox st.mailboxes path with
  | none => (st, [])
  | some lastUid =>
    match fetchResult with
    | .thrown => (st, [PollEv.fetch path])
    | .ok fetched =>
      let mails := fetched.filter (fun uid => decide (lastUid < uid))
      if 0 < mails.length then
        ({ st with mailboxes := setBox st.mailboxes path (mails.getLastD 0) },
         PollEv.fetch path :: mails.map PollEv.emitNewMail)
      else (st, [PollEv.fetch path])

/-- The watermark update a single successful poll performs, as a function of
the stored lastUid and the fetched uid list (the scalar core of
watchMailbox). -/
def pollStep (lastUid : Nat) (fetched : List Nat) : Nat :=
  let mails := fetched.filter (fun uid => decide (lastUid < uid))
  if 0 < mails.length then mails.getLastD 0 else lastUid

/-- A sequence of successful polls of one mailbox (the recurring timer set
up by Imap.watchMailboxes), accumulating the emitted events. -/
def runPolls (st : ImapState) (path : String) (fetches : List (List Nat)) :
    ImapState × List PollEv :=
  fetches.foldl
    (fun acc f =>
      let r := watchMailbox acc.1 path (JsResult.ok f)
      (r.1, acc.2 ++ r.2))
    (st, [])

/-- The stored watermark of a mailbox after a sequence of polls. -/
def watermarkAfter (st : ImapState) (path : String)
    (fetches : List (List Nat)) : Option Nat :=
  lookupBox (runPolls st path fetches).1.mailboxes path

/-- Steps of Imap.run, in order (Imap.ts lines 46-52): the connect attempt
(with Imap.connect catching a failure and scheduling a restart, lines
173-196), the error-handler registration (watchErrors), the mailbox listing
and initial scan (loadMailboxes), the watcher start (watchMailboxes), and
the scheduled loadedMails flush. -/
inductive RunEv where
  | connectAttempt (ok : Bool)
  | scheduleRestart (delayMs : Nat)
  | registerErrorHandler
  | listMailboxes
  | startWatchers
  | scheduleLoadedFlush (delayMs : Nat)
  deriving DecidableEq, Repr

/-- Imap.connect (Imap.ts lines 173-185): try to connect; on a throw, call
restart, which schedules run() again after the reconnect interval; the
throw itself is swallowed. -/
def connectStep (cfg : ImapConfig) (connectOk : Bool) : List RunEv :=
  if connectOk then [RunEv.connectAttempt true]
  else [RunEv.connectAttempt false, RunEv.scheduleRestart (restartDelay cfg)]

/-- Imap.run (Imap.ts lines 46-52).  Oracles: `connectOk` is whether
client.connect resolves, `listOk` whether client.list later resolves (on a
connection whose connect failed it rejects).  run awaits connect (which
never throws), then unconditionally proceeds: watchErrors registers the
error handler, loadMailboxes calls client.list — a rejection there
propagates out of run, since run has no try/catch — then watchMailboxes and
the one-second loadedMails flush timer. -/
def run (cfg : ImapConfig) (connectOk listOk : Bool) :
    List RunEv × JsResult Unit :=
  let t := connectStep cfg connectOk
    ++ [RunEv.registerErrorHandler, RunEv.listMailboxes]
  if listOk then
    (t ++ [RunEv.startWatchers, RunEv.scheduleLoadedFlush 1000],
     JsResult.ok ())
  else (t, JsResult.thrown)

end ImapMailbox

namespace ImapMailbox

/-- C2: the claim says the transport-error handler schedules the restart after
exactly the configured reconnect interval (default 60000 ms), the same delay
Imap.restart uses.  In the code the handler passes the seconds value
`reconnectInterval / 1000` to setTimeout (milliseconds), so with the default
configuration it restarts after 60 ms, not 60000 ms, while its own log line
announces "Restarting in 60 seconds".  This theorem evaluates both delays at
the default configuration and records the general 1000x discrepancy. -/
theorem errorHandlerDelay_is_thousandth_of_restartDelay :
    errorHandlerDelay {} = 60 ∧ restartDelay {} = 60000 ∧
      errorHandlerDelay {} ≠ restartDelay {} ∧
      ∀ cfg : ImapConfig, errorHandlerDelay cfg = restartDelay cfg / 1000 := by
  refine ⟨rfl, rfl, by decide, ?_⟩
  intro cfg
  rfl

/-- C1 counterexample: with a failing initial connect, run() does not stop
after scheduling the restart — its trace still contains the error-handler
registration and the mailbox listing (the remaining startup steps, executed
against the failed connection); and when that listing call rejects, run()
itself rejects to its caller. -/
theorem run_executes_rest_after_failed_connect :
    RunEv.registerErrorHandler ∈ (run {} false true).1 ∧
      RunEv.listMailboxes ∈ (run {} false true).1 ∧
      (run {} false false).2 = JsResult.thrown := by
  decide

/-- C1 amended: when the initial connection attempt fails, run() schedules a
full restart after the configured reconnect interval, but it does not
return early: it still executes the remaining startup steps against the
failed connection, and it rejects to its caller exactly when the mailbox
listing step rejects. -/
theorem run_connect_failure (cfg : ImapConfig) (listOk : Bool) :
    (run cfg false listOk).1.take 2
        = [RunEv.connectAttempt false,
           RunEv.scheduleRestart (restartDelay cfg)] ∧
      RunEv.registerErrorHandler ∈ (run cfg false listOk).1 ∧
      RunEv.listMailboxes ∈ (run cfg false listOk).1 ∧
      ((run cfg false listOk).2 = JsResult.ok () ↔ listOk = true) := by
  cases listOk <;> simp [run, connectStep]

/-- C7: two sequential polls with watermark 1 initially, the first fetching
uids 1,2,3 and the second 1,2,3,4,5: the first emits newMail for 2 then 3
and stores watermark 3, the second emits only for 4 then 5 and stores
watermark 5 — no duplicates, ascending order. -/
theorem two_sequential_polls :
    watchMailbox ⟨[("INBOX", 1)], []⟩ "INBOX" (JsResult.ok [1, 2, 3])
        = (⟨[("INBOX", 3)], []⟩,
           [PollEv.fetch "INBOX", PollEv.emitNewMail 2, PollEv.emitNewMail 3])
      ∧ watchMailbox ⟨[("INBOX", 3)], []⟩ "INBOX" (JsResult.ok [1, 2, 3, 4, 5])
        = (⟨[("INBOX", 5)], []⟩,
           [PollEv.fetch "INBOX", PollEv.emitNewMail 4,
            PollEv.emitNewMail 5]) := by
  decide

/-- C10: polling a path that is absent from the mailboxes map is a no-op:
watchMailbox returns the state unchanged and performs neither a fetch nor
an emission. -/
theorem watchMailbox_unknown_path_noop (st : ImapState) (path : String)
    (r : JsResult (List Nat)) (h : lookupBox st.mailboxes path = none) :
    watchMailbox st path r = (st, []) := by
  unfold watchMailbox
  rw [h]

/-- Witness for watchMailbox_unknown_path_noop at a concrete state: a
registry holding only INBOX polled at path Drafts. -/
theorem watchMailbox_unknown_path_noop_witness :
    lookupBox (ImapState.mk [("INBOX", 3)] []).mailboxes "Drafts" = none ∧
      watchMailbox ⟨[("INBOX", 3)], []⟩ "Drafts" (JsResult.ok [4, 5])
        = (⟨[("INBOX", 3)], []⟩, []) :=
  ⟨by decide,
   watchMailbox_unknown_path_noop ⟨[("INBOX", 3)], []⟩ "Drafts"
     (JsResult.ok [4, 5]) (by decide)⟩

theorem le_foldl_max (l : Nat) (f : List Nat) : l ≤ f.foldl max l := by
  induction f generalizing l with
  | nil => exact le_refl l
  | cons a t ih => exact le_trans (Nat.le_max_left l a) (ih (max l a))

theorem foldl_max_of_le (f : List Nat) (l : Nat) (h : ∀ x ∈ f, x ≤ l) :
    f.foldl max l = l := by
  induction f with
  | nil => rfl
  | cons a t ih =>
    simp only [List.foldl_cons]
    rw [Nat.max_eq_left (h a (List.mem_cons_self a t))]
    exact ih fun x hx => h x (List.mem_cons_of_mem a hx)

theorem foldl_max_shift (l : Nat) (f : List Nat) :
    f.foldl max l = max l (f.foldl max 0) := by
  induction f generalizing l with
  | nil => simp
  | cons a t ih =>
    simp only [List.foldl_cons]
    rw [ih (max l a), ih (max 0 a)]
    simp [Nat.max_assoc]

theorem mem_le_foldl_max (x : Nat) (f : List Nat) (l : Nat) (hx : x ∈ f) :
    x ≤ f.foldl max l := by
  induction f generalizing l with
  | nil => cases hx
  | cons a t ih =>
    simp only [List.foldl_cons]
    rcases List.mem_cons.mp hx with h | h
    · subst h
      exact le_trans (Nat.le_max_right l x) (le_foldl_max _ t)
    · exact ih (max l a) h

theorem foldl_max_mem (f : List Nat) (hne : f ≠ []) : f.foldl max 0 ∈ f := by
  induction f with
  | nil => exact absurd rfl hne
  | cons a t ih =>
    by_cases ht : t = []
    · subst ht
      simp
    · simp only [List.foldl_cons]
      rw [foldl_max_shift (max 0 a) t]
      rcases Nat.le_total (max 0 a) (t.foldl max 0) with hle | hle
      · rw [Nat.max_eq_right hle]
        exact List.mem_cons_of_mem a (ih ht)
      · rw [Nat.max_eq_left hle]
        simp

theorem getLastD_mem (f : List Nat) (d : Nat) (hne : f ≠ []) :
    f.getLastD d ∈ f := by
  induction f generalizing d with
  | nil => exact absurd rfl hne
  | cons a t ih =>
    rw [List.getLastD_cons]
    by_cases ht : t = []
    · subst ht
      simp
    · exact List.mem_cons_of_mem a (ih a ht)

theorem getLastD_default_irrel (t : List Nat) (hne : t ≠ []) (d : Nat) :
    t.getLastD d = t.getLastD 0 := by
  rw [List.getLastD_eq_getLast?, List.getLastD_eq_getLast?,
    List.getLast?_eq_getLast t hne]
  rfl

theorem sorted_le_getLastD (f : List Nat) (hs : List.Sorted (· ≤ ·) f)
    (x : Nat) (hx : x ∈ f) : x ≤ f.getLastD 0 := by
  induction f with
  | nil => cases hx
  | cons a t ih =>
    rw [List.getLastD_cons]
    obtain ⟨ha, ht⟩ := List.sorted_cons.mp hs
    by_cases htn : t = []
    · subst htn
      simp at hx
      subst hx
      rfl
    · rw [getLastD_default_irrel t htn]
      rcases List.mem_cons.mp hx with h | h
      · subst h
        exact ha _ (getLastD_mem t 0 htn)
      · exact ih ht h

theorem sorted_getLastD_eq_max (f : List Nat) (hs : List.Sorted (· ≤ ·) f)
    (hne : f ≠ []) : f.getLastD 0 = f.foldl max 0 :=
  Nat.le_antisymm
    (mem_le_foldl_max _ f 0 (getLastD_mem f 0 hne))
    (sorted_le_getLastD f hs _ (foldl_max_mem f hne))

/-- The watermark update of a single successful poll on a fetch list sorted
by ascending uid (the order fetch over range 1:* yields) equals taking the
maximum of the stored watermark and all fetched uids. -/
theorem pollStep_sorted (l : Nat) (f : List Nat)
    (hs : List.Sorted (· ≤ ·) f) : pollStep l f = f.foldl max l := by
  unfold pollStep
  by_cases hm : 0 < (f.filter (fun uid => decide (l < uid))).length
  · rw [if_pos hm]
    have hne : f.filter (fun uid => decide (l < uid)) ≠ [] :=
      List.ne_nil_of_length_pos hm
    have hsf : List.Sorted (· ≤ ·) (f.filter (fun uid => decide (l < uid))) :=
      List.Pairwise.filter _ hs
    rw [sorted_getLastD_eq_max _ hsf hne]
    obtain ⟨x, hxmem⟩ := List.exists_mem_of_ne_nil _ hne
    obtain ⟨hxf, hxl⟩ := List.mem_filter.mp hxmem
    have hlx : l < x := of_decide_eq_true hxl
    have hfne : f ≠ [] := by
      intro h
      subst h
      cases hxf
    have hlF : l < f.foldl max 0 :=
      lt_of_lt_of_le hlx (mem_le_foldl_max x f 0 hxf)
    have hFflt : f.foldl max 0 ∈ f.filter (fun uid => decide (l < uid)) :=
      List.mem_filter.mpr ⟨foldl_max_mem f hfne, by simp [hlF]⟩
    have le₁ : (f.filter (fun uid => decide (l < uid))).foldl max 0
        ≤ f.foldl max 0 :=
      mem_le_foldl_max _ f 0
        (List.mem_filter.mp (foldl_max_mem _ hne)).1
    have le₂ : f.foldl max 0
        ≤ (f.filter (fun uid => decide (l < uid))).foldl max 0 :=
      mem_le_foldl_max _ _ 0 hFflt
    rw [foldl_max_shift l f, Nat.max_eq_right (Nat.le_of_lt hlF)]
    exact Nat.le_antisymm le₁ le₂
  · rw [if_neg hm]
    have hall : ∀ x ∈ f, x ≤ l := by
      intro x hx
      by_contra hgt
      have hmem : x ∈ f.filter (fun uid => decide (l < uid)) :=
        List.mem_filter.mpr ⟨hx, by simp; omega⟩
      exact hm (List.length_pos_of_mem hmem)
    exact (foldl_max_of_le f l hall).symm

/-- Iterating the poll watermark update over sorted fetch lists equals
folding max over their concatenation. -/
theorem foldl_pollStep_sorted (fetches : List (List Nat))
    (hs : ∀ f ∈ fetches, List.Sorted (· ≤ ·) f) (w : Nat) :
    fetches.foldl pollStep w = fetches.flatten.foldl max w := by
  induction fetches generalizing w with
  | nil => rfl
  | cons f rest ih =>
    simp only [List.foldl_cons, List.flatten_cons, List.foldl_append]
    rw [pollStep_sorted w f (hs f (List.mem_cons_self f rest))]
    exact ih (fun g hg => hs g (List.mem_cons_of_mem f hg)) (f.foldl max w)

/-- The state component of runPolls ignores the event accumulator. -/
theorem runPolls_fst (path : String) (fetches : List (List Nat)) :
    ∀ (st : ImapState) (tr : List PollEv),
      (fetches.foldl
        (fun acc f =>
          let r := watchMailbox acc.1 path (JsResult.ok f)
          (r.1, acc.2 ++ r.2)) (st, tr)).1
      = fetches.foldl (fun s f => (watchMailbox s path (JsResult.ok f)).1)
          st := by
  induction fetches with
  | nil => intro st tr; rfl
  | cons f rest ih =>
    intro st tr
    simp only [List.foldl_cons]
    exact ih _ _

/-- On a registry holding exactly the polled mailbox, one poll updates its
watermark by pollStep and touches nothing else. -/
theorem watchMailbox_single_state (p : String) (w : Nat) (lm : List Nat)
    (f : List Nat) :
    (watchMailbox ⟨[(p, w)], lm⟩ p (JsResult.ok f)).1
      = ⟨[(p, pollStep w f)], lm⟩ := by
  have hl : lookupBox [(p, w)] p = some w := by
    simp [lookupBox]
  by_cases hm : 0 < (f.filter (fun uid => decide (w < uid))).length
  · simp [watchMailbox, hl, pollStep, hm, setBox]
  · simp [watchMailbox, hl, pollStep, hm]

/-- The pure state fold of a poll sequence on a single-mailbox registry. -/
theorem stateFold_single (p : String) (lm : List Nat)
    (fetches : List (List Nat)) : ∀ l : Nat,
    fetches.foldl (fun s f => (watchMailbox s p (JsResult.ok f)).1)
        ⟨[(p, l)], lm⟩
      = ⟨[(p, fetches.foldl pollStep l)], lm⟩ := by
  induction fetches with
  | nil => intro l; rfl
  | cons f rest ih =>
    intro l
    simp only [List.foldl_cons, watchMailbox_single_state]
    exact ih (pollStep l f)

/-- After any poll sequence on a single-mailbox registry the stored
watermark is the pollStep fold of the fetch lists. -/
theorem watermarkAfter_single (p : String) (l : Nat) (lm : List Nat)
    (fetches : List (List Nat)) :
    watermarkAfter ⟨[(p, l)], lm⟩ p fetches
      = some (fetches.foldl pollStep l) := by
  unfold watermarkAfter runPolls
  rw [runPolls_fst, stateFold_single]
  simp [lookupBox]

/-- C6: over any sequence of polls on a mailbox whose fetches arrive in
ascending uid order (the order a 1:* fetch yields), after every prefix of
the sequence the stored watermark equals the maximum of its initial value
and every uid fetched so far — in particular, after a poll that finds new
messages it equals the maximum uid fetched so far — and the watermark never
decreases from one poll to the next. -/
theorem watermark_monotone_max (p : String) (l : Nat) (lm : List Nat)
    (fetches : List (List Nat)) (n : Nat)
    (hs : ∀ f ∈ fetches, List.Sorted (· ≤ ·) f) :
    watermarkAfter ⟨[(p, l)], lm⟩ p (fetches.take n)
        = some ((fetches.take n).flatten.foldl max l) ∧
      (fetches.take n).flatten.foldl max l
        ≤ (fetches.take (n + 1)).flatten.foldl max l := by
  constructor
  · rw [watermarkAfter_single,
      foldl_pollStep_sorted _ (fun f hf => hs f (List.take_subset n fetches hf)) l]
  · rw [List.take_succ]
    simp only [List.flatten_append, List.foldl_append]
    exact le_foldl_max _ _

/-- Witness for watermark_monotone_max: watermark 1, then polls fetching
uids 1,2,3 and 1,2,3,4,5. -/
theorem watermark_monotone_max_witness :
    (∀ f ∈ [[1, 2, 3], [1, 2, 3, 4, 5]], List.Sorted (· ≤ ·) f) ∧
      (watermarkAfter ⟨[("INBOX", 1)], []⟩ "INBOX"
            ([[1, 2, 3], [1, 2, 3, 4, 5]].take 2)
          = some (([[1, 2, 3], [1, 2, 3, 4, 5]].take 2).flatten.foldl max 1) ∧
        ([[1, 2, 3], [1, 2, 3, 4, 5]].take 2).flatten.foldl max 1
          ≤ ([[1, 2, 3], [1, 2, 3, 4, 5]].take (2 + 1)).flatten.foldl max 1) :=
  ⟨by decide,
   watermark_monotone_max "INBOX" 1 [] [[1, 2, 3], [1, 2, 3, 4, 5]] 2
     (by decide)⟩

/-- In a mutation trace, the emission block contains no release. -/
theorem count_release_map_emit (l : List Nat) :
    (l.map Ev.emitDeletedMail).count Ev.release = 0 := by
  rw [List.count_eq_zero]
  simp

/-- C3 counterexample: unseeMails on an empty identifier list with the lock
available acquires the mailbox lock and returns without ever releasing it —
the acquired lock is released zero times, not exactly once. -/
theorem unseeMails_empty_list_leaks_lock :
    Ev.acquireLock "INBOX" true
        ∈ (unseeMails "INBOX" (UidsList.uids []) true (JsResult.ok false)).1 ∧
      (unseeMails "INBOX" (UidsList.uids []) true
          (JsResult.ok false)).1.count Ev.release = 0 := by
  decide

/-- C3 amended: deleteMails and seeMails release an acquired lock exactly
once on every path on which the store call resolves (to true or false);
unseeMails does so only when the normalized identifier list is nonempty —
with an empty list it acquires the lock and returns false without releasing
it; and when the store call rejects, none of the three releases the lock
(the rejection propagates). -/
theorem mutation_lock_release (p : String) (u : UidsList) (lockOk : Bool)
    (r : Bool) :
    ((deleteMails p u lockOk (JsResult.ok r)).1.count Ev.release
        = if lockOk then 1 else 0) ∧
      ((seeMails p u lockOk (JsResult.ok r)).1.count Ev.release
        = if lockOk then 1 else 0) ∧
      ((unseeMails p u lockOk (JsResult.ok r)).1.count Ev.release
        = if lockOk && decide (0 < (uidsAndMailsToUids u).length) then 1
          else 0) ∧
      ((deleteMails p u lockOk JsResult.thrown).1.count Ev.release = 0) ∧
      ((seeMails p u lockOk JsResult.thrown).1.count Ev.release = 0) ∧
      ((unseeMails p u lockOk JsResult.thrown).1.count Ev.release = 0) := by
  by_cases hu : 0 < (uidsAndMailsToUids u).length <;>
    cases lockOk <;> cases r <;>
      simp [deleteMails, seeMails, unseeMails, count_release_map_emit, hu,
        List.count_cons, List.count_append]

/-- C4 counterexample: deleteMails with uids [10, 11], an available lock and
a store that reports success produces the trace acquire, delete, emit 10,
emit 11, release — both deletedMail emissions happen strictly before the
release, not after the lock has been released as the claim states. -/
theorem deleteMails_emits_before_release :
    (deleteMails "INBOX" (UidsList.uids [10, 11]) true (JsResult.ok true)).1
        = [Ev.acquireLock "INBOX" true, Ev.storeDelete [10, 11],
           Ev.emitDeletedMail 10, Ev.emitDeletedMail 11, Ev.release] ∧
      Ev.emitDeletedMail 10
          ∈ (deleteMails "INBOX" (UidsList.uids [10, 11]) true
              (JsResult.ok true)).1.dropLast ∧
      Ev.emitDeletedMail 11
          ∈ (deleteMails "INBOX" (UidsList.uids [10, 11]) true
              (JsResult.ok true)).1.dropLast ∧
      (deleteMails "INBOX" (UidsList.uids [10, 11]) true
          (JsResult.ok true)).1.dropLast.count Ev.release = 0 := by
  decide

/-- C4 amended: when the lock is acquired and the store reports success,
deleteMails emits a deletedMail event for each normalized identifier, in
input order, after the store call and before the lock is released, and
returns true. -/
theorem deleteMails_success_emission (p : String) (l : UidsList) :
    deleteMails p l true (JsResult.ok true)
      = ([Ev.acquireLock p true, Ev.storeDelete (uidsAndMailsToUids l)]
          ++ (uidsAndMailsToUids l).map Ev.emitDeletedMail ++ [Ev.release],
         JsResult.ok true) := by
  simp [deleteMails]

/-- C5 counterexample: unseeMails on an empty identifier list does contact
the store — it calls getMailboxLock and, with the lock available, acquires
it, contradicting the claimed "no lock acquisition". -/
theorem unseeMails_empty_list_acquires_lock :
    Ev.acquireLock "INBOX" true
      ∈ (unseeMails "INBOX" (UidsList.uids []) true (JsResult.ok true)).1 := by
  decide

/-- C5 amended: unseeMails on an empty normalized identifier list returns
false without issuing a flag call (and without releasing the lock it may
have acquired), but it does call getMailboxLock first; deleteMails and
seeMails do not short-circuit on an empty list and still issue their store
operation. -/
theorem unseeMails_empty_short_circuit (p : String) (lockOk : Bool)
    (r : JsResult Bool) (rb : Bool) :
    unseeMails p (UidsList.uids []) lockOk r
        = ([Ev.acquireLock p lockOk], JsResult.ok false) ∧
      Ev.storeDelete []
          ∈ (deleteMails p (UidsList.uids []) true (JsResult.ok rb)).1 ∧
      Ev.storeFlagsAdd []
          ∈ (seeMails p (UidsList.uids []) true (JsResult.ok rb)).1 := by
  refine ⟨?_, ?_, ?_⟩
  · simp [unseeMails, uidsAndMailsToUids, dedupKeepFirst]
  · simp [deleteMails, uidsAndMailsToUids, dedupKeepFirst]
  · simp [seeMails, uidsAndMailsToUids, dedupKeepFirst]

/-- C9: when the mailbox lock cannot be acquired, seeMails returns false and
its trace is only the failed lock request — no flag-mutation call and no
event emission. -/
theorem seeMails_lock_unavailable (p : String) (l : UidsList)
    (r : JsResult Bool) :
    seeMails p l false r = ([Ev.acquireLock p false], JsResult.ok false) ∧
      (∀ us : List Nat,
        Ev.storeFlagsAdd us ∉ (seeMails p l false r).1) ∧
      (∀ n : Nat, Ev.emitDeletedMail n ∉ (seeMails p l false r).1) := by
  refine ⟨by simp [seeMails], ?_, ?_⟩ <;> intro x <;> simp [seeMails]

/-- C8: the content-extraction heuristic is total (parseContent is a total
Lean function, every internal throw of the original is a caught branch that
yields "").  On the raw body "Hello there\n--boundary123\nSent from my phone"
it returns "Hello there"; on an empty or undefined body it returns "". -/
theorem parseContent_ok :
    parseContentStr (some "Hello there\n--boundary123\nSent from my phone")
        = "Hello there" ∧
      parseContentStr (some "") = "" ∧ parseContentStr none = "" := by
  refine ⟨by decide, by decide, by decide⟩

end ImapMailbox
